import Mathlib

/-!
Verification development for the pi-splay dashboard workspace core.

The definitions below are a shallow embedding of the TypeScript source:
`src/components/TileManager.ts` (grid occupancy, add/remove/drag commit,
edit mode, drag threshold), `src/utils/MarkSyncManager.ts` (mark broadcast
bus), `src/utils/ClockManager.ts` (shared reference-counted clock),
`src/utils/time.ts` (mark creation and formatting) and
`src/components/TabManager.ts` (persistence of tabs).  Machine numbers
(JS doubles holding integers) are modelled as `Int`/`Nat`; DOM state that
mirrors the model (grid styles, CSS classes) is folded into the model
fields it mirrors.
-/

/-- Grid cell coordinates, in cell units (`{x, y}` in `types.ts`). -/
structure GridPosition where
  x : Nat
  y : Nat
deriving DecidableEq

/-- A placed tile: its id and its grid position.  The source `Tile` also
carries `type`, `size` and widget `data`; none of those affect placement,
and after `addTile` every tile in the manager has a definite
`gridPosition`, so the optional field is definite here. -/
structure Tile where
  id : String
  gridPosition : GridPosition
deriving DecidableEq

/-- The occupancy test of `TileManager`: the source collects the
`"x,y"` keys of every tile into a `Set` and asks `occupied.has(key)`. -/
def occupiedCells (ts : List Tile) (p : GridPosition) : Bool :=
  ts.any (fun t => t.gridPosition == p)

/-- Inner loop of `getNextAvailablePosition`: scan columns `col`,
`col+1`, ... for `fuel` steps, returning the first column of `row` whose
cell is unoccupied. -/
def findFreeCol (ts : List Tile) (row : Nat) : Nat → Nat → Option Nat
  | _, 0 => none
  | col, fuel + 1 =>
    if occupiedCells ts ⟨col, row⟩ then findFreeCol ts row (col + 1) fuel
    else some col

/-- Outer loop of `getNextAvailablePosition`: scan rows `row`, `row+1`,
... for `fuel` steps, each row scanned left-to-right over `maxCols`
columns. -/
def findFreeRow (ts : List Tile) (maxCols : Nat) : Nat → Nat → Option GridPosition
  | _, 0 => none
  | row, fuel + 1 =>
    match findFreeCol ts row 0 maxCols with
    | some col => some ⟨col, row⟩
    | none => findFreeRow ts maxCols (row + 1) fuel

/-- `TileManager.getNextAvailablePosition`: scans `row` from 0 to 99
(`for (let row = 0; row < 100; row++)`), columns 0 to `maxCols - 1`
within each row, and returns the first unoccupied cell; if the whole
scanned range is occupied it returns the fallback `{x: 0, y: 100}`.
`maxCols` stands for `Math.max(3, ceil((width - 32) / 524))`. -/
def getNextAvailablePosition (ts : List Tile) (maxCols : Nat) : GridPosition :=
  match findFreeRow ts maxCols 0 100 with
  | some p => p
  | none => ⟨0, 100⟩

/-- Whether some cell of the scanned 100-row × `maxCols`-column range is
unoccupied. -/
def existsFreeCell (ts : List Tile) (maxCols : Nat) : Bool :=
  (List.range 100).any (fun row =>
    (List.range maxCols).any (fun col => !(occupiedCells ts ⟨col, row⟩)))

/-- JS `Map.set` keyed by tile id (`this.tiles.set(tile.id, ...)`): if
the id is present its entry is replaced in place, otherwise the entry is
appended in insertion order. -/
def mapSet (ts : List Tile) (t : Tile) : List Tile :=
  if ts.any (fun u => u.id == t.id) then
    ts.map (fun u => if u.id == t.id then t else u)
  else ts ++ [t]

/-- `TileManager.addTile`: the tile keeps the grid position it arrives
with (explicit `tile.gridPosition`, or the pending position of a clicked
drop zone), and otherwise is assigned `getNextAvailablePosition`. -/
def addTile (maxCols : Nat) (ts : List Tile) (id : String)
    (posGiven : Option GridPosition) : List Tile :=
  let p := match posGiven with
    | some q => q
    | none => getNextAvailablePosition ts maxCols
  mapSet ts ⟨id, p⟩

/-- `TileManager.removeTile`: deletes the entry with the given id
(`this.tiles.delete(id)`). -/
def removeTile (ts : List Tile) (id : String) : List Tile :=
  ts.filter (fun t => !(t.id == id))

/-- The commit step shared by `handleDrop`, `handleMouseEnd` and
`handleTouchEnd`: the dragged tile's `gridPosition` is set to the target
cell, with no occupancy check on the target. -/
def setTilePosition (ts : List Tile) (id : String) (p : GridPosition) : List Tile :=
  ts.map (fun t => if t.id == id then { t with gridPosition := p } else t)

/-- A committed workspace mutation: add a tile (with or without an
explicit position), remove a tile, or commit a drag (native drop, mouse
release or touch end all run the same commit). -/
inductive WsOp where
  | add (id : String) (posGiven : Option GridPosition)
  | remove (id : String)
  | dragCommit (id : String) (target : GridPosition)

def applyWsOp (maxCols : Nat) (ts : List Tile) : WsOp → List Tile
  | .add id posGiven => addTile maxCols ts id posGiven
  | .remove id => removeTile ts id
  | .dragCommit id target => setTilePosition ts id target

def applyWsOps (maxCols : Nat) (ts : List Tile) (ops : List WsOp) : List Tile :=
  ops.foldl (applyWsOp maxCols) ts

/-- The occupancy invariant: no two tiles report the same grid position. -/
def occupancyOk (ts : List Tile) : Prop :=
  (ts.map Tile.gridPosition).Nodup

/-- Tile ids are pairwise distinct (automatic for a JS `Map` keyed by id). -/
def idsOk (ts : List Tile) : Prop :=
  (ts.map Tile.id).Nodup

instance (ts : List Tile) : Decidable (occupancyOk ts) :=
  List.nodupDecidable _

instance (ts : List Tile) : Decidable (idsOk ts) :=
  List.nodupDecidable _

/-- The target cell is not held by any tile other than (possibly) the
tile with the given id. -/
def freeForOthers (ts : List Tile) (id : String) (p : GridPosition) : Prop :=
  ∀ t ∈ ts, t.id ≠ id → t.gridPosition ≠ p

instance (ts : List Tile) (id : String) (p : GridPosition) :
    Decidable (freeForOthers ts id p) :=
  List.decidableBAll _ ts

/-- Side condition under which one mutation cannot create a collision:
an auto-placed add finds some free cell in the scanned range, and an
explicitly positioned add or a drag commit targets a cell no other tile
holds. -/
def wsOpSafe (maxCols : Nat) (ts : List Tile) : WsOp → Prop
  | .add _ none => existsFreeCell ts maxCols = true
  | .add id (some p) => freeForOthers ts id p
  | .remove _ => True
  | .dragCommit id p => freeForOthers ts id p

instance wsOpSafeDec (maxCols : Nat) (ts : List Tile) :
    (op : WsOp) → Decidable (wsOpSafe maxCols ts op)
  | .add _ none => inferInstanceAs (Decidable (_ = _))
  | .add id (some p) => inferInstanceAs (Decidable (freeForOthers ts id p))
  | .remove _ => inferInstanceAs (Decidable True)
  | .dragCommit id p => inferInstanceAs (Decidable (freeForOthers ts id p))

/-- Every mutation of the sequence satisfies its side condition in the
state it runs in. -/
def safeSeq (maxCols : Nat) (ts : List Tile) : List WsOp → Prop
  | [] => True
  | op :: ops => wsOpSafe maxCols ts op ∧ safeSeq maxCols (applyWsOp maxCols ts op) ops

instance safeSeqDec (maxCols : Nat) :
    (ts : List Tile) → (ops : List WsOp) → Decidable (safeSeq maxCols ts ops)
  | _, [] => .isTrue trivial
  | ts, op :: ops =>
    @instDecidableAnd _ _ (wsOpSafeDec maxCols ts op)
      (safeSeqDec maxCols (applyWsOp maxCols ts op) ops)

/-! ### Correctness lemmas for the row-major scan -/

theorem findFreeCol_some (ts : List Tile) (row : Nat) :
    ∀ fuel col c, findFreeCol ts row col fuel = some c →
      occupiedCells ts ⟨c, row⟩ = false ∧ col ≤ c ∧ c < col + fuel ∧
        ∀ c', col ≤ c' → c' < c → occupiedCells ts ⟨c', row⟩ = true := by
  intro fuel
  induction fuel with
  | zero => intro col c h; simp [findFreeCol] at h
  | succ n ih =>
    intro col c h
    cases hocc : occupiedCells ts ⟨col, row⟩ with
    | true =>
      simp only [findFreeCol, hocc, if_true] at h
      obtain ⟨h1, h2, h3, h4⟩ := ih (col + 1) c h
      refine ⟨h1, by omega, by omega, ?_⟩
      intro c' hc1 hc2
      rcases Nat.eq_or_lt_of_le hc1 with rfl | hlt
      · exact hocc
      · exact h4 c' hlt hc2
    | false =>
      simp only [findFreeCol, hocc, Bool.false_eq_true, if_false, Option.some.injEq] at h
      subst h
      exact ⟨hocc, Nat.le_refl _, by omega, fun c' h1 h2 => absurd h2 (by omega)⟩

theorem findFreeCol_none (ts : List Tile) (row : Nat) :
    ∀ fuel col, findFreeCol ts row col fuel = none →
      ∀ c', col ≤ c' → c' < col + fuel → occupiedCells ts ⟨c', row⟩ = true := by
  intro fuel
  induction fuel with
  | zero => intro col _ c' h1 h2; omega
  | succ n ih =>
    intro col h c' h1 h2
    cases hocc : occupiedCells ts ⟨col, row⟩ with
    | true =>
      simp only [findFreeCol, hocc, if_true] at h
      rcases Nat.eq_or_lt_of_le h1 with rfl | hlt
      · exact hocc
      · exact ih (col + 1) h c' hlt (by omega)
    | false =>
      simp [findFreeCol, hocc] at h

theorem findFreeCol_of_all_occupied (ts : List Tile) (row : Nat) :
    ∀ fuel col,
      (∀ c', col ≤ c' → c' < col + fuel → occupiedCells ts ⟨c', row⟩ = true) →
      findFreeCol ts row col fuel = none := by
  intro fuel
  induction fuel with
  | zero => intro col _; rfl
  | succ n ih =>
    intro col h
    have hc : occupiedCells ts ⟨col, row⟩ = true := h col (Nat.le_refl _) (by omega)
    simp only [findFreeCol, hc, if_true]
    exact ih (col + 1) (fun c' h1 h2 => h c' (by omega) (by omega))

theorem findFreeRow_some (ts : List Tile) (maxCols : Nat) :
    ∀ fuel row p, findFreeRow ts maxCols row fuel = some p →
      occupiedCells ts p = false ∧ p.x < maxCols ∧ row ≤ p.y ∧ p.y < row + fuel ∧
        ∀ q : GridPosition, q.x < maxCols → row ≤ q.y →
          (q.y < p.y ∨ (q.y = p.y ∧ q.x < p.x)) → occupiedCells ts q = true := by
  intro fuel
  induction fuel with
  | zero => intro row p h; simp [findFreeRow] at h
  | succ n ih =>
    intro row p h
    cases hcol : findFreeCol ts row 0 maxCols with
    | some col =>
      simp only [findFreeRow, hcol, Option.some.injEq] at h
      obtain ⟨h1, h2, h3, h4⟩ := findFreeCol_some ts row maxCols 0 col hcol
      subst h
      refine ⟨h1, show col < maxCols by omega, show row ≤ row from Nat.le_refl _,
        show row < row + (n + 1) by omega, ?_⟩
      intro q hqx hqy hlt
      obtain ⟨a, b⟩ := q
      dsimp only at hqx hqy hlt
      rcases hlt with hy | ⟨hy, hx⟩
      · omega
      · subst hy
        exact h4 a (Nat.zero_le _) hx
    | none =>
      simp only [findFreeRow, hcol] at h
      obtain ⟨h1, h2, h3, h4, h5⟩ := ih (row + 1) p h
      refine ⟨h1, h2, by omega, by omega, ?_⟩
      intro q hqx hqy hlt
      rcases Nat.eq_or_lt_of_le hqy with hrow | hlt2
      · obtain ⟨a, b⟩ := q
        dsimp only at hqx hrow ⊢
        have hb : b = row := hrow.symm
        rw [hb]
        exact findFreeCol_none ts row maxCols 0 hcol a (Nat.zero_le _) (by omega)
      · exact h5 q hqx hlt2 hlt

theorem findFreeRow_none (ts : List Tile) (maxCols : Nat) :
    ∀ fuel row, findFreeRow ts maxCols row fuel = none →
      ∀ q : GridPosition, q.x < maxCols → row ≤ q.y → q.y < row + fuel →
        occupiedCells ts q = true := by
  intro fuel
  induction fuel with
  | zero => intro row _ q _ h1 h2; omega
  | succ n ih =>
    intro row h q hqx hqy hqy2
    cases hcol : findFreeCol ts row 0 maxCols with
    | some col => simp [findFreeRow, hcol] at h
    | none =>
      simp only [findFreeRow, hcol] at h
      rcases Nat.eq_or_lt_of_le hqy with hrow | hlt
      · obtain ⟨a, b⟩ := q
        dsimp only at hqx hrow ⊢
        have hb : b = row := hrow.symm
        rw [hb]
        exact findFreeCol_none ts row maxCols 0 hcol a (Nat.zero_le _) (by omega)
      · exact ih (row + 1) h q hqx hlt (by omega)

theorem findFreeRow_of_all_occupied (ts : List Tile) (maxCols : Nat) :
    ∀ fuel row,
      (∀ q : GridPosition, q.x < maxCols → row ≤ q.y → q.y < row + fuel →
        occupiedCells ts q = true) →
      findFreeRow ts maxCols row fuel = none := by
  intro fuel
  induction fuel with
  | zero => intro row _; rfl
  | succ n ih =>
    intro row h
    have hcol : findFreeCol ts row 0 maxCols = none := by
      apply findFreeCol_of_all_occupied
      intro c' _ h2
      exact h ⟨c', row⟩ (show c' < maxCols by omega) (show row ≤ row from Nat.le_refl _)
        (show row < row + (n + 1) by omega)
    simp only [findFreeRow, hcol]
    exact ih (row + 1) (fun q hx h1 h2 => h q hx (by omega) (by omega))

theorem existsFreeCell_spec (ts : List Tile) (maxCols : Nat) :
    existsFreeCell ts maxCols = true ↔
      ∃ q : GridPosition, q.x < maxCols ∧ q.y < 100 ∧ occupiedCells ts q = false := by
  constructor
  · intro h
    simp only [existsFreeCell, List.any_eq_true, List.mem_range, Bool.not_eq_eq_eq_not,
      Bool.not_true] at h
    obtain ⟨row, hrow, col, hcol, hfree⟩ := h
    exact ⟨⟨col, row⟩, hcol, hrow, hfree⟩
  · intro hq
    obtain ⟨q, hx, hy, hfree⟩ := hq
    simp only [existsFreeCell, List.any_eq_true, List.mem_range, Bool.not_eq_eq_eq_not,
      Bool.not_true]
    refine ⟨q.y, hy, q.x, hx, ?_⟩
    have hq2 : (⟨q.x, q.y⟩ : GridPosition) = q := by cases q; rfl
    rw [hq2, hfree]

theorem nextAvailable_free (ts : List Tile) (maxCols : Nat)
    (h : existsFreeCell ts maxCols = true) :
    occupiedCells ts (getNextAvailablePosition ts maxCols) = false ∧
    (getNextAvailablePosition ts maxCols).x < maxCols ∧
    (getNextAvailablePosition ts maxCols).y < 100 := by
  cases hrow : findFreeRow ts maxCols 0 100 with
  | some p =>
    obtain ⟨h1, h2, _, h4, _⟩ := findFreeRow_some ts maxCols 100 0 p hrow
    have hg : getNextAvailablePosition ts maxCols = p := by
      unfold getNextAvailablePosition
      rw [hrow]
    rw [hg]
    exact ⟨h1, h2, by omega⟩
  | none =>
    exfalso
    obtain ⟨q, hx, hy, hfree⟩ := (existsFreeCell_spec ts maxCols).mp h
    have hocc := findFreeRow_none ts maxCols 100 0 hrow q hx (Nat.zero_le _) (by omega)
    simp [hocc] at hfree

theorem nextAvailable_minimal (ts : List Tile) (maxCols : Nat)
    (h : existsFreeCell ts maxCols = true) :
    ∀ q : GridPosition, q.x < maxCols →
      (q.y < (getNextAvailablePosition ts maxCols).y ∨
       (q.y = (getNextAvailablePosition ts maxCols).y ∧
        q.x < (getNextAvailablePosition ts maxCols).x)) →
      occupiedCells ts q = true := by
  intro q hqx hlt
  cases hrow : findFreeRow ts maxCols 0 100 with
  | some p =>
    have hg : getNextAvailablePosition ts maxCols = p := by
      unfold getNextAvailablePosition
      rw [hrow]
    rw [hg] at hlt
    obtain ⟨_, _, _, _, h5⟩ := findFreeRow_some ts maxCols 100 0 p hrow
    exact h5 q hqx (Nat.zero_le _) hlt
  | none =>
    exfalso
    obtain ⟨r, hx, hy, hfree⟩ := (existsFreeCell_spec ts maxCols).mp h
    have hocc := findFreeRow_none ts maxCols 100 0 hrow r hx (Nat.zero_le _) (by omega)
    simp [hocc] at hfree

theorem nextAvailable_fallback (ts : List Tile) (maxCols : Nat)
    (h : existsFreeCell ts maxCols = false) :
    getNextAvailablePosition ts maxCols = ⟨0, 100⟩ := by
  have hall : ∀ q : GridPosition, q.x < maxCols → 0 ≤ q.y → q.y < 0 + 100 →
      occupiedCells ts q = true := by
    intro q hx _ hy
    by_contra hocc
    simp only [Bool.not_eq_true] at hocc
    have hex : existsFreeCell ts maxCols = true :=
      (existsFreeCell_spec ts maxCols).mpr ⟨q, hx, by omega, hocc⟩
    simp [h] at hex
  have hnone := findFreeRow_of_all_occupied ts maxCols 100 0 hall
  unfold getNextAvailablePosition
  rw [hnone]

/-! ### Preservation of the occupancy and id invariants -/

theorem nodup_append_singleton {α : Type} (l : List α) (a : α)
    (hl : l.Nodup) (ha : a ∉ l) : (l ++ [a]).Nodup := by
  induction l with
  | nil => simp
  | cons x xs ih =>
    simp only [List.cons_append, List.nodup_cons] at hl ⊢
    obtain ⟨hx, hxs⟩ := hl
    refine ⟨?_, ih hxs (fun h => ha (List.mem_cons_of_mem _ h))⟩
    intro hmem
    rcases List.mem_append.mp hmem with h | h
    · exact hx h
    · have hxa : x = a := by simpa using h
      exact ha (hxa ▸ List.mem_cons_self _ _)

theorem freeForOthers_of_unoccupied (ts : List Tile) (id : String) (p : GridPosition)
    (h : occupiedCells ts p = false) : freeForOthers ts id p := by
  intro t ht _ hpt
  unfold occupiedCells at h
  rw [List.any_eq_false] at h
  exact h t ht (by simp [hpt])

theorem setTilePosition_ids (ts : List Tile) (id : String) (p : GridPosition) :
    (setTilePosition ts id p).map Tile.id = ts.map Tile.id := by
  induction ts with
  | nil => rfl
  | cons u rest ih =>
    simp only [setTilePosition, List.map_cons] at ih ⊢
    cases hu : u.id == id with
    | true => rw [if_pos rfl, ih]
    | false => rw [if_neg (by simp), ih]

theorem setTilePosition_occupancy (id : String) (p : GridPosition) :
    ∀ ts : List Tile, idsOk ts → occupancyOk ts → freeForOthers ts id p →
      occupancyOk (setTilePosition ts id p) := by
  intro ts
  induction ts with
  | nil => intro _ _ _; simp [occupancyOk, setTilePosition]
  | cons u rest ih =>
    intro hids hocc hfree
    simp only [idsOk, List.map_cons, List.nodup_cons] at hids
    obtain ⟨hu_id, hrest_ids⟩ := hids
    simp only [occupancyOk, List.map_cons, List.nodup_cons] at hocc
    obtain ⟨hu_pos, hrest_occ⟩ := hocc
    have hfree_rest : freeForOthers rest id p :=
      fun t ht => hfree t (List.mem_cons_of_mem _ ht)
    have hrest := ih hrest_ids hrest_occ hfree_rest
    simp only [setTilePosition, occupancyOk, List.map_cons, List.nodup_cons] at hrest ⊢
    cases hu : u.id == id with
    | true =>
      rw [if_pos rfl]
      have huid : u.id = id := by simpa using hu
      have hne : ∀ t ∈ rest, t.id ≠ id := by
        intro t ht heq
        apply hu_id
        rw [huid, ← heq]
        exact List.mem_map_of_mem Tile.id ht
      refine ⟨?_, hrest⟩
      intro hmem
      simp only [List.mem_map] at hmem
      obtain ⟨v, hv, hvp⟩ := hmem
      obtain ⟨v0, hv0, rfl⟩ := hv
      have hv0ne : (v0.id == id) = false := by simp [hne v0 hv0]
      rw [if_neg (by simp [hv0ne])] at hvp
      exact hfree v0 (List.mem_cons_of_mem _ hv0) (hne v0 hv0) (by simpa using hvp)
    | false =>
      rw [if_neg (by simp)]
      have huid : u.id ≠ id := by simpa using hu
      refine ⟨?_, hrest⟩
      intro hmem
      simp only [List.mem_map] at hmem
      obtain ⟨v, hv, hvp⟩ := hmem
      obtain ⟨v0, hv0, rfl⟩ := hv
      cases hb : v0.id == id with
      | true =>
        rw [if_pos hb] at hvp
        have hup : u.gridPosition = p := by simpa using hvp.symm
        exact hfree u (List.mem_cons_self _ _) huid hup
      | false =>
        rw [if_neg (by simp [hb])] at hvp
        apply hu_pos
        rw [← hvp]
        exact List.mem_map_of_mem Tile.gridPosition hv0

theorem setTilePosition_preserves (ts : List Tile) (id : String) (p : GridPosition)
    (hids : idsOk ts) (hocc : occupancyOk ts) (hfree : freeForOthers ts id p) :
    idsOk (setTilePosition ts id p) ∧ occupancyOk (setTilePosition ts id p) := by
  constructor
  · unfold idsOk
    rw [setTilePosition_ids]
    exact hids
  · exact setTilePosition_occupancy id p ts hids hocc hfree

theorem mapSet_of_mem (ts : List Tile) (t : Tile)
    (hany : ts.any (fun u => u.id == t.id) = true) :
    mapSet ts t = setTilePosition ts t.id t.gridPosition := by
  unfold mapSet setTilePosition
  rw [if_pos hany]
  apply List.map_congr_left
  intro u _
  cases hu : u.id == t.id with
  | true =>
    rw [if_pos rfl, if_pos rfl]
    have huid : u.id = t.id := by simpa using hu
    cases t
    cases u
    simp_all
  | false => rw [if_neg (by simp), if_neg (by simp)]

theorem mapSet_preserves (ts : List Tile) (t : Tile)
    (hids : idsOk ts) (hocc : occupancyOk ts)
    (hfree : freeForOthers ts t.id t.gridPosition) :
    idsOk (mapSet ts t) ∧ occupancyOk (mapSet ts t) := by
  cases hany : ts.any (fun u => u.id == t.id) with
  | true =>
    rw [mapSet_of_mem ts t hany]
    exact setTilePosition_preserves ts t.id t.gridPosition hids hocc hfree
  | false =>
    unfold mapSet
    rw [if_neg (by simp [hany])]
    rw [List.any_eq_false] at hany
    have hne : ∀ u ∈ ts, u.id ≠ t.id := by
      intro u hu heq
      exact hany u hu (by simp [heq])
    constructor
    · unfold idsOk
      rw [List.map_append]
      apply nodup_append_singleton _ _ hids
      intro hmem
      obtain ⟨u, hu, hup⟩ := List.mem_map.mp hmem
      exact hne u hu hup
    · unfold occupancyOk
      rw [List.map_append]
      apply nodup_append_singleton _ _ hocc
      intro hmem
      obtain ⟨u, hu, hup⟩ := List.mem_map.mp hmem
      exact hfree u hu (hne u hu) hup

theorem removeTile_preserves (ts : List Tile) (id : String)
    (hids : idsOk ts) (hocc : occupancyOk ts) :
    idsOk (removeTile ts id) ∧ occupancyOk (removeTile ts id) := by
  have hsub : List.Sublist (removeTile ts id) ts := by
    unfold removeTile
    exact List.filter_sublist ts
  exact ⟨List.Nodup.sublist (hsub.map Tile.id) hids,
    List.Nodup.sublist (hsub.map Tile.gridPosition) hocc⟩

theorem applyWsOp_preserves (maxCols : Nat) (ts : List Tile) (op : WsOp)
    (hids : idsOk ts) (hocc : occupancyOk ts) (hsafe : wsOpSafe maxCols ts op) :
    idsOk (applyWsOp maxCols ts op) ∧ occupancyOk (applyWsOp maxCols ts op) := by
  cases op with
  | add id posGiven =>
    cases posGiven with
    | some p =>
      have hfree : freeForOthers ts id p := hsafe
      exact mapSet_preserves ts ⟨id, p⟩ hids hocc hfree
    | none =>
      have hex : existsFreeCell ts maxCols = true := hsafe
      obtain ⟨hunocc, _, _⟩ := nextAvailable_free ts maxCols hex
      exact mapSet_preserves ts ⟨id, getNextAvailablePosition ts maxCols⟩ hids hocc
        (freeForOthers_of_unoccupied ts id _ hunocc)
  | remove id => exact removeTile_preserves ts id hids hocc
  | dragCommit id target =>
    have hfree : freeForOthers ts id target := hsafe
    exact setTilePosition_preserves ts id target hids hocc hfree

theorem applyWsOps_preserves (maxCols : Nat) :
    ∀ ops : List WsOp, ∀ ts : List Tile, idsOk ts → occupancyOk ts →
      safeSeq maxCols ts ops →
      idsOk (applyWsOps maxCols ts ops) ∧ occupancyOk (applyWsOps maxCols ts ops) := by
  intro ops
  induction ops with
  | nil => intro ts h1 h2 _; exact ⟨h1, h2⟩
  | cons op rest ih =>
    intro ts h1 h2 hsafe
    obtain ⟨hop, hrest⟩ := hsafe
    obtain ⟨h1a, h2a⟩ := applyWsOp_preserves maxCols ts op h1 h2 hop
    exact ih (applyWsOp maxCols ts op) h1a h2a hrest

/-! ### Claims about the grid placement engine (C1, C6) -/

/-- C1 (counterexample): the claim "for every sequence of committed
workspace operations, in the resulting state no two distinct tiles have
the same grid position" is false of the code.  The drag commit of
`handleDrop`/`handleMouseEnd`/`handleTouchEnd` writes the target cell
into the dragged tile with no occupancy check, so auto-adding two tiles
(placed at (0,0) and (1,0)) and then committing a drag of the first onto
(1,0) — a position the fallback branch of `getGridPositionFromEvent` can
produce for a pointer over the occupied cell — leaves both tiles at
(1,0). -/
theorem occupancy_invariant_counterexample :
    ¬ occupancyOk
      (applyWsOps 3 [] [.add "a" none, .add "b" none, .dragCommit "a" ⟨1, 0⟩]) := by
  decide

/-- C1 (amended): starting from a committed state whose tiles have
pairwise distinct ids and positions, any sequence of committed
operations preserves the occupancy invariant provided each drag commit
or explicitly-positioned add targets a cell held by no other tile, and
each auto-placed add still finds a free cell inside the scanned
100-row range.  (The unamended claim fails because a drag commit can
target an occupied cell; see the counterexample.) -/
theorem occupancy_invariant_amended (maxCols : Nat) (ts : List Tile) (ops : List WsOp)
    (hids : idsOk ts) (hocc : occupancyOk ts) (hsafe : safeSeq maxCols ts ops) :
    occupancyOk (applyWsOps maxCols ts ops) ∧ idsOk (applyWsOps maxCols ts ops) := by
  obtain ⟨h1, h2⟩ := applyWsOps_preserves maxCols ops ts hids hocc hsafe
  exact ⟨h2, h1⟩

/-- Witness for the amended C1 theorem at a concrete safe sequence. -/
theorem occupancy_invariant_amended_witness :
    occupancyOk (applyWsOps 3 []
      [WsOp.add "a" none, WsOp.add "b" none, WsOp.dragCommit "a" ⟨2, 0⟩]) ∧
    idsOk (applyWsOps 3 []
      [WsOp.add "a" none, WsOp.add "b" none, WsOp.dragCommit "a" ⟨2, 0⟩]) :=
  occupancy_invariant_amended 3 []
    [WsOp.add "a" none, WsOp.add "b" none, WsOp.dragCommit "a" ⟨2, 0⟩]
    (by decide) (by decide) (by decide)

/-- An occupancy set covering every cell of rows 0–100 for columns 0–2:
all 300 cells the scan visits plus the fallback cell (0,100). -/
def fullGridTiles : List Tile :=
  (List.range 303).map (fun i => ⟨"", ⟨i % 3, i / 3⟩⟩)

set_option maxRecDepth 100000 in
/-- C6 (counterexample): the claim that the next-available-position scan
has "no upper bound on the row count (a free cell is always found, never
a fallback position that may be occupied)" is false: the source loop
stops after 100 rows (`for (let row = 0; row < 100; row++)`) and then
returns the fixed fallback `{x: 0, y: 100}`; with every cell of rows
0–100 occupied the function returns (0,100), which is occupied. -/
theorem nextFree_counterexample :
    getNextAvailablePosition fullGridTiles 3 = ⟨0, 100⟩ ∧
    occupiedCells fullGridTiles ⟨0, 100⟩ = true := by
  constructor
  · decide
  · decide

/-- C6 (amended): the scan visits rows 0–99 top-to-bottom, columns
left-to-right within a row.  If some cell in that bounded range is free,
it returns the row-major-first free cell of the range; if the whole
range is occupied it returns the fallback (0,100), which may itself be
occupied. -/
theorem nextFree_amended (ts : List Tile) (maxCols : Nat) :
    (existsFreeCell ts maxCols = true →
      occupiedCells ts (getNextAvailablePosition ts maxCols) = false ∧
      (getNextAvailablePosition ts maxCols).x < maxCols ∧
      (getNextAvailablePosition ts maxCols).y < 100 ∧
      ∀ q : GridPosition, q.x < maxCols →
        (q.y < (getNextAvailablePosition ts maxCols).y ∨
         (q.y = (getNextAvailablePosition ts maxCols).y ∧
          q.x < (getNextAvailablePosition ts maxCols).x)) →
        occupiedCells ts q = true) ∧
    (existsFreeCell ts maxCols = false →
      getNextAvailablePosition ts maxCols = ⟨0, 100⟩) := by
  constructor
  · intro hex
    obtain ⟨h1, h2, h3⟩ := nextAvailable_free ts maxCols hex
    exact ⟨h1, h2, h3, nextAvailable_minimal ts maxCols hex⟩
  · intro hex
    exact nextAvailable_fallback ts maxCols hex

set_option maxRecDepth 100000 in
/-- Witness for the amended C6 theorem: both branches exercised on
concrete occupancy sets. -/
theorem nextFree_amended_witness :
    occupiedCells [] (getNextAvailablePosition [] 3) = false ∧
    getNextAvailablePosition fullGridTiles 3 = ⟨0, 100⟩ :=
  ⟨((nextFree_amended [] 3).1 (by decide)).1,
   (nextFree_amended fullGridTiles 3).2 (by decide)⟩

/-! ### Time utilities and the mark sync bus (`utils/time.ts`,
`utils/MarkSyncManager.ts`) -/

/-- Environment fixing the ambient clock and runtime timezone data for
one synchronous run: `now` is `Date.now()` in milliseconds since the
epoch, `localOffsetMs` is the runtime's local UTC offset in milliseconds
(local wall clock = instant + offset), and `is12Hour` is
`getHourFormat() === '12'`. -/
structure TimeEnv where
  now : Int
  localOffsetMs : Int
  is12Hour : Bool
deriving DecidableEq

/-- A widget timezone as `utils/time.ts` distinguishes them: the literal
strings 'local' and 'utc', or an IANA name.  For an IANA name the
environment-determined fact about it is its UTC offset in milliseconds
as reported by `Intl.DateTimeFormat` (`none` when the name is invalid
and `Intl` throws). -/
inductive Timezone where
  | localZone
  | utcZone
  | iana (offsetMs : Option Int)
deriving DecidableEq

/-- `getTimeForTimezone`: for 'local' and 'utc' it returns `new Date()`
(the current instant).  For an IANA name it formats the zone's current
wall clock to whole-second fields with `Intl.DateTimeFormat` and
re-parses the result with `new Date(string)` as local time, yielding the
instant `1000·⌊(now + offset)/1000⌋ − localOffsetMs`; when `Intl` throws
(invalid name) it falls back to the current instant. -/
def getTimeForTimezone (env : TimeEnv) : Timezone → Int
  | .localZone => env.now
  | .utcZone => env.now
  | .iana (some offsetMs) => 1000 * ((env.now + offsetMs).fdiv 1000) - env.localOffsetMs
  | .iana none => env.now

/-- `String(n).padStart(len, c)`. -/
def padStart (s : String) (len : Nat) (c : Char) : String :=
  if s.length < len then String.mk (List.replicate (len - s.length) c) ++ s else s

/-- `formatTime(date, includeMilliseconds, useUTC, use12Hour)` from
`utils/time.ts`: reads the hour/minute/second/millisecond components of
the instant in local time (or UTC when `useUTC`), applies the 12-hour
conversion when requested (default from `getHourFormat()`), and
zero-pads the fields (milliseconds to 4 digits). -/
def formatTime (env : TimeEnv) (d : Int) (includeMilliseconds : Bool)
    (useUTC : Bool) (use12Hour : Option Bool) : String :=
  let hourFormat := match use12Hour with
    | some b => b
    | none => env.is12Hour
  let wall := if useUTC then d else d + env.localOffsetMs
  let msOfDay := (wall.emod 86400000).toNat
  let hours0 := msOfDay / 3600000
  let minutes := msOfDay % 3600000 / 60000
  let seconds := msOfDay % 60000 / 1000
  let ms := msOfDay % 1000
  let period := if hourFormat then (if hours0 ≥ 12 then " PM" else " AM") else ""
  let hours := if hourFormat then (if hours0 % 12 = 0 then 12 else hours0 % 12) else hours0
  let hoursStr := padStart (toString hours) 2 '0'
  let minutesStr := padStart (toString minutes) 2 '0'
  let secondsStr := padStart (toString seconds) 2 '0'
  if includeMilliseconds then
    let msStr := padStart (toString ms) 4 '0'
    hoursStr ++ ":" ++ minutesStr ++ ":" ++ secondsStr ++ "." ++ msStr ++ period
  else
    hoursStr ++ ":" ++ minutesStr ++ ":" ++ secondsStr ++ period

/-- A `TimeMark` (`types.ts`): display string, whole epoch seconds, and
the millisecond timestamp. -/
structure TimeMark where
  time : String
  epoch : Int
  timestamp : Int
deriving DecidableEq

/-- `createTimeMark(timezone)`: takes the `Date` from
`getTimeForTimezone`, stores `date.getTime()` as `timestamp`,
`Math.floor(timestamp / 1000)` as `epoch`, and formats the display
string (UTC component extraction exactly when the timezone is 'utc'). -/
def createTimeMark (env : TimeEnv) (timezone : Timezone) : TimeMark :=
  let date := getTimeForTimezone env timezone
  let timestamp := date
  let epoch := timestamp.fdiv 1000
  let useUTC := timezone == Timezone.utcZone
  let time := formatTime env date true useUTC none
  ⟨time, epoch, timestamp⟩

/-- The state a registered `MarkableModule` exposes to the sync bus: its
timezone (`getTimezone()` — the fixed `'local'` for `EpochModule`,
`this.data.timezone` for `TimeModule`) and its current mark list
(`this.data.marks`, newest first). -/
structure MarkWidget where
  timezone : Timezone
  marks : List TimeMark
deriving DecidableEq

/-- `addMark(mark)`: `this.data.marks.unshift(mark)` prepends. -/
def MarkWidget.addMark (w : MarkWidget) (mark : TimeMark) : MarkWidget :=
  { w with marks := mark :: w.marks }

/-- `removeMark(index)` of `TimeModule`/`EpochModule`:
`this.data.marks.splice(index, 1)` guarded by
`index >= 0 && index < this.data.marks.length`; any out-of-range index
is a silent no-op. -/
def MarkWidget.removeMark (w : MarkWidget) (index : Int) : MarkWidget :=
  if 0 ≤ index ∧ index < (w.marks.length : Int) then
    { w with marks := w.marks.eraseIdx index.toNat }
  else w

/-- Observable calls `MarkSyncManager.syncTap` makes, in order:
computing widget `i`'s mark (its `getTimezone()` plus `createTimeMark`)
in the first `forEach`, and invoking `addMark` on widget `i` in the
second. -/
inductive SyncEvent where
  | computeMark (widget : Nat)
  | applyMark (widget : Nat)
deriving DecidableEq

/-- Point update of the registry list at an index. -/
def modifyIdx (f : MarkWidget → MarkWidget) : List MarkWidget → Nat → List MarkWidget
  | [], _ => []
  | w :: ws, 0 => f w :: ws
  | w :: ws, n + 1 => w :: modifyIdx f ws n

/-- `MarkSyncManager.syncTap`: the first pass over the registry computes
one mark per module from that module's own timezone
(`marks.set(module, createTimeMark(module.getTimezone()))`), and only
then a second pass applies `module.addMark(mark)` to each module.
Registry iteration order is the `Set`/`Map` insertion order, i.e. list
order.  The result pairs the updated registry with the ordered trace of
observable calls. -/
def syncTap (env : TimeEnv) (ws : List MarkWidget) : List MarkWidget × List SyncEvent :=
  let marks := ws.enum.map (fun p => (p.1, createTimeMark env p.2.timezone))
  let computeTrace := ws.enum.map (fun p => SyncEvent.computeMark p.1)
  marks.foldl
    (fun acc im => (modifyIdx (fun w => w.addMark im.2) acc.1 im.1,
      acc.2 ++ [SyncEvent.applyMark im.1]))
    (ws, computeTrace)

/-- `MarkSyncManager.syncRemoveMark(index)`: applies `removeMark(index)`
to every registered module, with no recomputation. -/
def syncRemoveMark (ws : List MarkWidget) (index : Int) : List MarkWidget :=
  ws.map (fun w => w.removeMark index)

theorem syncTap_fold_trace :
    ∀ (ms : List (Nat × TimeMark)) (ws0 : List MarkWidget) (tr0 : List SyncEvent),
      (ms.foldl
        (fun acc im => (modifyIdx (fun w => w.addMark im.2) acc.1 im.1,
          acc.2 ++ [SyncEvent.applyMark im.1])) (ws0, tr0)).2 =
        tr0 ++ ms.map (fun im => SyncEvent.applyMark im.1) := by
  intro ms
  induction ms with
  | nil => intro ws0 tr0; simp
  | cons m rest ih =>
    intro ws0 tr0
    simp only [List.foldl_cons, List.map_cons]
    rw [ih]
    simp

theorem syncTap_fold_widgets :
    ∀ (ms : List (Nat × TimeMark)) (ws0 : List MarkWidget) (tr0 : List SyncEvent),
      (ms.foldl
        (fun acc im => (modifyIdx (fun w => w.addMark im.2) acc.1 im.1,
          acc.2 ++ [SyncEvent.applyMark im.1])) (ws0, tr0)).1 =
        ms.foldl (fun l im => modifyIdx (fun w => w.addMark im.2) l im.1) ws0 := by
  intro ms
  induction ms with
  | nil => intro ws0 tr0; rfl
  | cons m rest ih =>
    intro ws0 tr0
    simp only [List.foldl_cons]
    rw [ih]

theorem modifyIdx_append (f : MarkWidget → MarkWidget) :
    ∀ (pre : List MarkWidget) (w : MarkWidget) (rest : List MarkWidget),
      modifyIdx f (pre ++ w :: rest) pre.length = pre ++ f w :: rest := by
  intro pre
  induction pre with
  | nil => intro w rest; rfl
  | cons a pre ih =>
    intro w rest
    simp only [List.cons_append, List.length_cons, modifyIdx, List.append_eq]
    rw [ih]

theorem fold_modify_enumFrom (env : TimeEnv) :
    ∀ (ws pre : List MarkWidget),
      ((List.enumFrom pre.length ws).map
          (fun p => (p.1, createTimeMark env p.2.timezone))).foldl
        (fun l im => modifyIdx (fun w => w.addMark im.2) l im.1) (pre ++ ws) =
      pre ++ ws.map (fun w => w.addMark (createTimeMark env w.timezone)) := by
  intro ws
  induction ws with
  | nil => intro pre; simp
  | cons w rest ih =>
    intro pre
    have henum : List.enumFrom pre.length (w :: rest) =
        (pre.length, w) :: List.enumFrom (pre.length + 1) rest := rfl
    rw [henum]
    simp only [List.map_cons, List.foldl_cons]
    rw [modifyIdx_append]
    have hlen : pre.length + 1 =
        (pre ++ [w.addMark (createTimeMark env w.timezone)]).length := by simp
    have hstep := ih (pre ++ [w.addMark (createTimeMark env w.timezone)])
    rw [← hlen] at hstep
    simp only [List.append_assoc, List.singleton_append] at hstep
    exact hstep

theorem syncTap_fst (env : TimeEnv) (ws : List MarkWidget) :
    (syncTap env ws).1 = ws.map (fun w => w.addMark (createTimeMark env w.timezone)) := by
  unfold syncTap
  simp only
  rw [syncTap_fold_widgets]
  have henum : ws.enum = List.enumFrom 0 ws := rfl
  have h0 : (0 : Nat) = ([] : List MarkWidget).length := rfl
  rw [henum, h0]
  have := fold_modify_enumFrom env ws []
  simpa using this

theorem syncTap_snd (env : TimeEnv) (ws : List MarkWidget) :
    (syncTap env ws).2 =
      ((List.range ws.length).map SyncEvent.computeMark) ++
        ((List.range ws.length).map SyncEvent.applyMark) := by
  unfold syncTap
  simp only
  rw [syncTap_fold_trace]
  congr 1
  · have hc : (fun p : Nat × MarkWidget => SyncEvent.computeMark p.1) =
        SyncEvent.computeMark ∘ Prod.fst := rfl
    rw [hc, ← List.map_map, List.enum_map_fst]
  · rw [List.map_map]
    have hc : ((fun im : Nat × TimeMark => SyncEvent.applyMark im.1) ∘
        (fun p : Nat × MarkWidget => (p.1, createTimeMark env p.2.timezone))) =
        SyncEvent.applyMark ∘ Prod.fst := rfl
    rw [hc, ← List.map_map, List.enum_map_fst]

/-! ### Claims about the mark broadcast (C2, C3, C10) -/

/-- C2: one `syncTap` broadcast over N registered widgets first computes
every widget's mark from that widget's own timezone, and only then
invokes `addMark` — the trace is exactly compute(0),…,compute(N−1)
followed by addMark(0),…,addMark(N−1), so each widget receives exactly
one `addMark`, and every mark value is computed before any `addMark`
call; the resulting registry has the widget's own mark prepended to each
widget's list. -/
theorem syncTap_simultaneity (env : TimeEnv) (ws : List MarkWidget) :
    (syncTap env ws).2 =
      ((List.range ws.length).map SyncEvent.computeMark) ++
        ((List.range ws.length).map SyncEvent.applyMark) ∧
    (syncTap env ws).1 =
      ws.map (fun w => w.addMark (createTimeMark env w.timezone)) :=
  ⟨syncTap_snd env ws, syncTap_fst env ws⟩

/-- C3 (counterexample): the claim that every widget receives a mark
with the same timestamp fails when an IANA timezone is present.  With a
'utc' widget and an IANA widget whose zone offset is +1 h (e.g.
Etc/GMT-1), runtime local offset 0 and instant 0 ms, `syncTap` delivers
timestamps 0 and 3600000: `getTimeForTimezone` re-parses the IANA wall
clock as local time, so the stored timestamp is shifted by the zone
offset (and truncated to seconds) instead of denoting the instant of
creation. -/
theorem mark_timestamp_counterexample :
    (syncTap ⟨0, 0, false⟩
        [⟨Timezone.utcZone, []⟩, ⟨Timezone.iana (some 3600000), []⟩]).1.map
      (fun w => w.marks.map TimeMark.timestamp) = [[0], [3600000]] ∧
    (0 : Int) ≠ 3600000 := by
  constructor
  · decide
  · decide

/-- C3 (amended): when every registered widget's timezone is 'local' or
'utc', one broadcast delivers to every widget a mark whose `timestamp`
is exactly the shared instant `now` and whose `epoch` is
`⌊now / 1000⌋` — identical across widgets, only the display string
differing; an IANA-timezone widget instead receives the wall-clock
re-parsed timestamp `1000·⌊(now + offset)/1000⌋ − localOffsetMs`, which
can differ (see the counterexample). -/
theorem mark_timestamp_amended (env : TimeEnv) (ws : List MarkWidget)
    (h : ∀ w ∈ ws, w.timezone = Timezone.localZone ∨ w.timezone = Timezone.utcZone) :
    (syncTap env ws).1 = ws.map (fun w => w.addMark (createTimeMark env w.timezone)) ∧
    ∀ w ∈ ws, (createTimeMark env w.timezone).timestamp = env.now ∧
      (createTimeMark env w.timezone).epoch = env.now.fdiv 1000 := by
  refine ⟨syncTap_fst env ws, ?_⟩
  intro w hw
  rcases h w hw with htz | htz <;>
    simp [createTimeMark, getTimeForTimezone, htz]

/-- Witness for the amended C3 theorem at a concrete environment and
registry. -/
theorem mark_timestamp_amended_witness :
    (createTimeMark ⟨1700000000000, -18000000, true⟩ Timezone.localZone).timestamp =
      1700000000000 ∧
    (createTimeMark ⟨1700000000000, -18000000, true⟩ Timezone.localZone).epoch =
      1700000000 := by
  have h := (mark_timestamp_amended ⟨1700000000000, -18000000, true⟩
    [⟨Timezone.localZone, []⟩] (by decide)).2 ⟨Timezone.localZone, []⟩ (by simp)
  exact ⟨h.1, by rw [h.2]; decide⟩

/-- C10: the synchronized remove-mark broadcast applies each widget's
own `removeMark(index)`; for every widget whose mark list makes the
index out of range (negative, or at least the list length) the source
guard `index >= 0 && index < this.data.marks.length` fails and that
widget's mark list is left unchanged — a silent per-widget no-op, and no
error is raised (`removeMark` is a total function). -/
theorem syncRemoveMark_out_of_range (ws : List MarkWidget) (index : Int)
    (i : Nat) (hi : i < ws.length)
    (hout : index < 0 ∨ (ws[i].marks.length : Int) ≤ index) :
    (syncRemoveMark ws index)[i]? = some ws[i] := by
  unfold syncRemoveMark
  rw [List.getElem?_map, List.getElem?_eq_getElem hi]
  have hno : MarkWidget.removeMark ws[i] index = ws[i] := by
    unfold MarkWidget.removeMark
    rw [if_neg (by omega)]
  simp [hno]

/-- Witness for the C10 theorem: removing index 5 from a registry whose
single widget holds one mark changes nothing. -/
theorem syncRemoveMark_out_of_range_witness :
    (syncRemoveMark [⟨Timezone.utcZone, [⟨"x", 0, 0⟩]⟩] 5)[0]? =
      some ⟨Timezone.utcZone, [⟨"x", 0, 0⟩]⟩ :=
  syncRemoveMark_out_of_range [⟨Timezone.utcZone, [⟨"x", 0, 0⟩]⟩] 5 0
    (by decide) (by decide)

/-! ### The shared clock (`utils/ClockManager.ts`, C4) -/

/-- `ClockManager` state: the subscriber set (insertion-ordered,
identity-keyed — modelled by distinct `Nat` tokens), the `isRunning`
flag, and the two timer handles modelled by whether each timer is still
scheduled: `timeoutPending` for the aligned one-shot (`timeoutId`) and
`intervalActive` for the 1000 ms repeat (`intervalId`). -/
structure ClockState where
  subscribers : List Nat
  isRunning : Bool
  timeoutPending : Bool
  intervalActive : Bool
deriving DecidableEq

/-- The singleton's initial state: no subscribers, nothing running. -/
def initialClock : ClockState := ⟨[], false, false, false⟩

/-- `startClock`: guarded by `if (this.isRunning) return;`, sets the flag
and schedules the aligned one-shot (`scheduleNextTick`). -/
def ClockState.startClock (s : ClockState) : ClockState :=
  if s.isRunning then s
  else { s with isRunning := true, timeoutPending := true }

/-- `stopClock`: guarded by `if (!this.isRunning) return;`, clears the
flag and both timers (`clearTimeout`/`clearInterval`). -/
def ClockState.stopClock (s : ClockState) : ClockState :=
  if !s.isRunning then s
  else { s with isRunning := false, timeoutPending := false, intervalActive := false }

/-- `subscribe`: adds to the set, then starts the clock iff it is not
already running. -/
def ClockState.subscribe (s : ClockState) (x : Nat) : ClockState :=
  let s' := { s with subscribers :=
    if x ∈ s.subscribers then s.subscribers else s.subscribers ++ [x] }
  if !s'.isRunning then s'.startClock else s'

/-- `unsubscribe`: deletes from the set, then stops the clock iff the set
became empty while running. -/
def ClockState.unsubscribe (s : ClockState) (x : Nat) : ClockState :=
  let s' := { s with subscribers := s.subscribers.filter (fun y => y != x) }
  if s'.subscribers.length = 0 ∧ s'.isRunning then s'.stopClock else s'

/-- The aligned one-shot firing: the callback notifies subscribers and
installs the repeating interval; the one-shot is spent. -/
def ClockState.timeoutFires (s : ClockState) : ClockState :=
  if s.timeoutPending then { s with timeoutPending := false, intervalActive := true }
  else s

/-- One externally driven clock event: a widget subscribing or
unsubscribing, or the scheduled one-shot firing. -/
inductive ClockOp where
  | sub (x : Nat)
  | unsub (x : Nat)
  | fire

def applyClockOp (s : ClockState) : ClockOp → ClockState
  | .sub x => s.subscribe x
  | .unsub x => s.unsubscribe x
  | .fire => s.timeoutFires

def runClock (ops : List ClockOp) : ClockState :=
  ops.foldl applyClockOp initialClock

/-- Number of timers currently scheduled. -/
def activeTimers (s : ClockState) : Nat :=
  (if s.timeoutPending then 1 else 0) + (if s.intervalActive then 1 else 0)

/-- The reference-counting invariant: the running flag tracks set
non-emptiness, and exactly one timer is scheduled iff running. -/
def clockInv (s : ClockState) : Prop :=
  (s.isRunning = true ↔ s.subscribers ≠ []) ∧
  activeTimers s = (if s.isRunning then 1 else 0)

theorem clockInv_initial : clockInv initialClock := by
  constructor <;> simp [initialClock, activeTimers]

theorem clockInv_apply (s : ClockState) (op : ClockOp) (h : clockInv s) :
    clockInv (applyClockOp s op) := by
  obtain ⟨h1, h2⟩ := h
  rcases s with ⟨subs, run, tp, ia⟩
  simp only [clockInv, activeTimers] at h1 h2 ⊢
  cases op with
  | sub x =>
    simp only [applyClockOp, ClockState.subscribe, ClockState.startClock]
    cases run <;> cases tp <;> cases ia <;>
      by_cases hmem : x ∈ subs <;>
      by_cases hnil : subs = [] <;>
      simp_all
  | unsub x =>
    simp only [applyClockOp, ClockState.unsubscribe, ClockState.stopClock]
    cases run with
    | true =>
      by_cases hempty : (subs.filter (fun y => y != x)).length = 0
      · rw [if_pos ⟨hempty, rfl⟩]
        have hnil : subs.filter (fun y => y != x) = [] := List.length_eq_zero.mp hempty
        simp_all
        exact hnil
      · rw [if_neg (fun hc => hempty hc.1)]
        have hne : subs.filter (fun y => y != x) ≠ [] := by
          intro hnil
          exact hempty (by rw [hnil]; rfl)
        simp_all
    | false =>
      rw [if_neg (by simp)]
      have hsubs : subs = [] := by simpa using h1
      subst hsubs
      simp_all
  | fire =>
    simp only [applyClockOp, ClockState.timeoutFires]
    cases run <;> cases tp <;> cases ia <;> simp_all

theorem clockInv_run (ops : List ClockOp) : clockInv (runClock ops) := by
  have hgen : ∀ (l : List ClockOp) (s : ClockState), clockInv s →
      clockInv (l.foldl applyClockOp s) := by
    intro l
    induction l with
    | nil => intro s hs; exact hs
    | cons op rest ih =>
      intro s hs
      exact ih (applyClockOp s op) (clockInv_apply s op hs)
  exact hgen ops initialClock clockInv_initial

/-- C4: under any sequence of subscribe/unsubscribe calls (and one-shot
firings), the clock is strictly reference-counted: at most one timer is
ever scheduled, no timer is scheduled while the subscriber set is empty
(so unsubscribing the last subscriber stops the clock), and exactly one
timer is scheduled whenever subscribers remain (so the first subscribe
starts exactly one timer and no later subscribe starts a second). -/
theorem clock_refcount (ops : List ClockOp) :
    activeTimers (runClock ops) ≤ 1 ∧
    ((runClock ops).subscribers = [] → activeTimers (runClock ops) = 0) ∧
    ((runClock ops).subscribers ≠ [] → activeTimers (runClock ops) = 1) := by
  obtain ⟨h1, h2⟩ := clockInv_run ops
  refine ⟨?_, ?_, ?_⟩
  · rw [h2]
    split <;> omega
  · intro hnil
    have hrun : (runClock ops).isRunning = false := by
      cases hr : (runClock ops).isRunning with
      | true => exact absurd hnil (h1.mp hr)
      | false => rfl
    rw [h2, hrun]
    simp
  · intro hne
    rw [h2, h1.mpr hne]
    simp

/-- Witness for the C4 theorem on concrete event sequences: after a
subscribe (and a fire, a second subscribe, one unsubscribe) exactly one
timer runs; after the last unsubscribe none does. -/
theorem clock_refcount_witness :
    activeTimers (runClock [ClockOp.sub 1, ClockOp.fire, ClockOp.sub 2, ClockOp.unsub 1]) = 1 ∧
    activeTimers (runClock [ClockOp.sub 1, ClockOp.unsub 1]) = 0 :=
  ⟨(clock_refcount [ClockOp.sub 1, ClockOp.fire, ClockOp.sub 2, ClockOp.unsub 1]).2.2
      (by decide),
   (clock_refcount [ClockOp.sub 1, ClockOp.unsub 1]).2.1 (by decide)⟩

/-! ### The drag threshold (C5) -/

/-- The mouse-path drag state of `TileManager` relevant to the
threshold: edit mode, the armed tile (`draggedElement`), the pointer-down
coordinates, and the `isMouseDragging` flag. -/
structure MouseDragState where
  isEditMode : Bool
  dragged : Option String
  mouseStartX : Int
  mouseStartY : Int
  isMouseDragging : Bool
deriving DecidableEq

/-- `handleMouseMove`, restricted to the state it mutates: it returns
immediately unless edit mode is on and a tile is armed
(`if (!this.isEditMode || !this.draggedElement) return`); it then sets
`isMouseDragging` exactly when `Math.abs` of either delta is strictly
greater than 10 (`(deltaY > 10 || deltaX > 10) && !this.isMouseDragging`). -/
def handleMouseMove (s : MouseDragState) (clientX clientY : Int) : MouseDragState :=
  if s.isEditMode = false ∨ s.dragged = none then s
  else
    let deltaY := (clientY - s.mouseStartY).natAbs
    let deltaX := (clientX - s.mouseStartX).natAbs
    if (deltaY > 10 ∨ deltaX > 10) ∧ s.isMouseDragging = false then
      { s with isMouseDragging := true }
    else s

/-- The touch-path drag state (`touchStartX/Y`, `isTouchDragging`). -/
structure TouchDragState where
  dragged : Option String
  touchStartX : Int
  touchStartY : Int
  isTouchDragging : Bool
deriving DecidableEq

/-- `handleTouchMove` threshold logic: it returns immediately when
nothing is armed (`if (!this.draggedElement) return` — edit mode is
checked at `touchstart`); the flag is set exactly when either delta is
strictly greater than 10. -/
def handleTouchMove (s : TouchDragState) (clientX clientY : Int) : TouchDragState :=
  if s.dragged = none then s
  else
    let deltaY := (clientY - s.touchStartY).natAbs
    let deltaX := (clientX - s.touchStartX).natAbs
    if (deltaY > 10 ∨ deltaX > 10) ∧ s.isTouchDragging = false then
      { s with isTouchDragging := true }
    else s

/-- C5 (counterexample): the claim "movement at or beyond 10 units in
either axis always transitions to DRAGGING" is false at exactly 10: the
source tests `deltaY > 10 || deltaX > 10` strictly, so an armed session
moved exactly 10 units (mouse or touch) does not start dragging. -/
theorem drag_threshold_counterexample :
    (handleMouseMove ⟨true, some "t", 0, 0, false⟩ 10 0).isMouseDragging = false ∧
    (handleTouchMove ⟨some "t", 0, 0, false⟩ 10 0).isTouchDragging = false ∧
    (10 : Int).natAbs ≥ 10 := by
  refine ⟨?_, ?_, ?_⟩ <;> decide

/-- C5 (amended): for an armed, not-yet-dragging session, a movement
whose absolute delta is at most 10 in both axes never transitions to
DRAGGING, and a movement strictly beyond 10 in either axis always does —
identically for the mouse and touch paths. -/
theorem drag_threshold_amended (d : String) (sx sy x y : Int) :
    (((x - sx).natAbs ≤ 10 ∧ (y - sy).natAbs ≤ 10) →
      (handleMouseMove ⟨true, some d, sx, sy, false⟩ x y).isMouseDragging = false ∧
      (handleTouchMove ⟨some d, sx, sy, false⟩ x y).isTouchDragging = false) ∧
    (((x - sx).natAbs > 10 ∨ (y - sy).natAbs > 10) →
      (handleMouseMove ⟨true, some d, sx, sy, false⟩ x y).isMouseDragging = true ∧
      (handleTouchMove ⟨some d, sx, sy, false⟩ x y).isTouchDragging = true) := by
  constructor
  · intro ⟨hx, hy⟩
    constructor
    · unfold handleMouseMove
      rw [if_neg (by simp)]
      rw [if_neg (by dsimp only; omega)]
    · unfold handleTouchMove
      rw [if_neg (by simp)]
      rw [if_neg (by dsimp only; omega)]
  · intro hbeyond
    constructor
    · unfold handleMouseMove
      rw [if_neg (by simp)]
      rw [if_pos (by dsimp only; exact ⟨by omega, rfl⟩)]
    · unfold handleTouchMove
      rw [if_neg (by simp)]
      rw [if_pos (by dsimp only; exact ⟨by omega, rfl⟩)]

/-- Witness for the amended C5 theorem: a 5-unit move does not start a
drag; a 20-unit move does. -/
theorem drag_threshold_amended_witness :
    (handleMouseMove ⟨true, some "t", 0, 0, false⟩ 5 0).isMouseDragging = false ∧
    (handleMouseMove ⟨true, some "t", 0, 0, false⟩ 20 0).isMouseDragging = true :=
  ⟨((drag_threshold_amended "t" 0 0 5 0).1 (by decide)).1,
   ((drag_threshold_amended "t" 0 0 20 0).2 (by decide)).1⟩

/-! ### The trash target (C7) -/

/-- Modelled from the spec: the repository source contains no
TrashTarget — `TileManager` deletes tiles only through per-tile remove
buttons, and no drag-over-trash hit-region exists anywhere under `src/`.
Following the spec (§ TrashTarget: "if a drag session ends while the
pointer is inside it, the tile is deleted instead of repositioned", and
§ 6: "the core calls a single `persist(allTiles)` operation after every
committed mutation"), a trash commit removes the dragged tile and
invokes persistence once with the remaining tiles; the second component
collects the persistence calls made by the commit. -/
def trashCommit (ts : List Tile) (id : String) : List Tile × List (List Tile) :=
  let remaining := removeTile ts id
  (remaining, [remaining])

/-- C7: a drag session ending over the trash target removes the dragged
tile instead of repositioning it: the tile's entry is deleted, the
occupancy set loses exactly that tile's cell (no other cell changes),
and persistence is invoked exactly once, with the remaining tiles. -/
theorem trashCommit_removes (ts : List Tile) (t : Tile)
    (hmem : t ∈ ts) (hids : idsOk ts) (hocc : occupancyOk ts) :
    (trashCommit ts t.id).1 = ts.filter (fun u => !(u.id == t.id)) ∧
    occupiedCells (trashCommit ts t.id).1 t.gridPosition = false ∧
    (∀ p : GridPosition, p ≠ t.gridPosition →
      occupiedCells (trashCommit ts t.id).1 p = occupiedCells ts p) ∧
    (trashCommit ts t.id).2 = [(trashCommit ts t.id).1] := by
  have hinj := List.inj_on_of_nodup_map (f := Tile.gridPosition) hocc
  have hinjid := List.inj_on_of_nodup_map (f := Tile.id) hids
  refine ⟨rfl, ?_, ?_, rfl⟩
  · rw [show (trashCommit ts t.id).1 = removeTile ts t.id from rfl]
    unfold occupiedCells
    rw [List.any_eq_false]
    intro u hu
    unfold removeTile at hu
    rw [List.mem_filter] at hu
    obtain ⟨huts, hune⟩ := hu
    intro hup
    have hupos : u.gridPosition = t.gridPosition := by simpa using hup
    have : u = t := hinj huts hmem hupos
    subst this
    simp at hune
  · intro p hp
    rw [show (trashCommit ts t.id).1 = removeTile ts t.id from rfl]
    unfold occupiedCells removeTile
    cases hocc2 : ts.any (fun u => u.gridPosition == p) with
    | false =>
      rw [List.any_eq_false] at hocc2
      rw [List.any_eq_false]
      intro u hu
      exact hocc2 u (List.mem_filter.mp hu).1
    | true =>
      rw [List.any_eq_true] at hocc2
      obtain ⟨u, hu, hup⟩ := hocc2
      have hupos : u.gridPosition = p := by simpa using hup
      rw [List.any_eq_true]
      refine ⟨u, ?_, hup⟩
      rw [List.mem_filter]
      refine ⟨hu, ?_⟩
      have hune : u.id ≠ t.id := by
        intro heq
        have : u = t := hinjid hu hmem heq
        subst this
        exact hp hupos.symm
      simp [hune]

/-- Witness for the C7 theorem at the spec's scenario: tiles at (0,0)
and (1,0); trashing the tile at (0,0) leaves only (1,0) occupied and
persists once. -/
theorem trashCommit_removes_witness :
    occupiedCells
      (trashCommit [⟨"a", ⟨0, 0⟩⟩, ⟨"b", ⟨1, 0⟩⟩] "a").1 ⟨0, 0⟩ = false ∧
    (trashCommit [⟨"a", ⟨0, 0⟩⟩, ⟨"b", ⟨1, 0⟩⟩] "a").2 =
      [(trashCommit [⟨"a", ⟨0, 0⟩⟩, ⟨"b", ⟨1, 0⟩⟩] "a").1] := by
  have h := trashCommit_removes [⟨"a", ⟨0, 0⟩⟩, ⟨"b", ⟨1, 0⟩⟩] ⟨"a", ⟨0, 0⟩⟩
    (by decide) (by decide) (by decide)
  exact ⟨h.2.1, h.2.2.2⟩

/-! ### Persistence of committed mutations (`TabManager`, C8) -/

/-- A `Tab` (`types.ts`): id, display name, tiles. -/
structure Tab where
  id : String
  name : String
  tiles : List Tile
deriving DecidableEq

/-- Outcome of a persistence attempt: the in-memory tab list afterwards,
whether the catch block logged, and whether an exception escaped to the
caller. -/
structure SaveOutcome where
  tabs : List Tab
  logged : Bool
  thrown : Bool
deriving DecidableEq

/-- `TabManager.saveToStorage`: `localStorage.setItem` either succeeds
(`storageOk`) or throws; a failure is caught and logged
(`console.error`), and then re-thrown if and only if
`window.location.hostname` is `localhost` or `127.0.0.1` ("Re-throw in
development to make errors more visible").  The in-memory `this.tabs`
is untouched either way. -/
def saveToStorage (tabs : List Tab) (hostname : String) (storageOk : Bool) : SaveOutcome :=
  if storageOk then ⟨tabs, false, false⟩
  else ⟨tabs, true, hostname == "localhost" || hostname == "127.0.0.1"⟩

/-- `Array.prototype.find` followed by `tab.tiles = tiles`, as a list
update keyed by tab id. -/
def updateTabTiles (tabs : List Tab) (tid : String) (tiles : List Tile) : List Tab :=
  tabs.map (fun t => if t.id == tid then { t with tiles := tiles } else t)

/-- `TabManager.setTilesForActiveTab`, the committed-mutation
persistence path: with an active tab present it writes the tiles into
that tab and then calls `saveToStorage`, whose exception — when
re-thrown — escapes to the calling interaction handler. -/
def setTilesForActiveTab (tabs : List Tab) (activeTabId : Option String)
    (tiles : List Tile) (hostname : String) (storageOk : Bool) : SaveOutcome :=
  match activeTabId with
  | none => ⟨tabs, false, false⟩
  | some tid =>
    if tabs.any (fun t => t.id == tid) then
      saveToStorage (updateTabTiles tabs tid tiles) hostname storageOk
    else ⟨tabs, false, false⟩

/-- C8 (counterexample): the claim that a persistence failure is "never
propagated back into the calling interaction handler" is false: with
hostname `localhost` and a failing storage write, the caught exception
is deliberately re-thrown and escapes to the caller. -/
theorem persistence_swallow_counterexample :
    (setTilesForActiveTab [⟨"t1", "default", []⟩] (some "t1") []
      "localhost" false).thrown = true := by
  decide

/-- C8 (amended): for every committed mutation, a failing save is caught
and logged, and the in-memory tab state — already updated before the
save — is unchanged by the failure; the exception is swallowed except
when the hostname is `localhost` or `127.0.0.1`, where the catch block
re-throws it into the caller. -/
theorem persistence_swallow_amended (tabs : List Tab) (tid : String)
    (tiles : List Tile) (hostname : String) (storageOk : Bool)
    (hmem : tabs.any (fun t => t.id == tid) = true) :
    (setTilesForActiveTab tabs (some tid) tiles hostname storageOk).tabs =
      updateTabTiles tabs tid tiles ∧
    (setTilesForActiveTab tabs (some tid) tiles hostname storageOk).logged =
      !storageOk ∧
    (setTilesForActiveTab tabs (some tid) tiles hostname storageOk).thrown =
      (!storageOk && (hostname == "localhost" || hostname == "127.0.0.1")) := by
  simp only [setTilesForActiveTab, if_pos hmem, saveToStorage]
  cases storageOk <;> simp

/-- Witness for the amended C8 theorem: a failing save on a
non-development hostname is logged, not thrown, and leaves the updated
tabs in memory. -/
theorem persistence_swallow_amended_witness :
    (setTilesForActiveTab [⟨"t1", "default", []⟩] (some "t1")
        [⟨"a", ⟨0, 0⟩⟩] "example.com" false).tabs =
      updateTabTiles [⟨"t1", "default", []⟩] "t1" [⟨"a", ⟨0, 0⟩⟩] ∧
    (setTilesForActiveTab [⟨"t1", "default", []⟩] (some "t1")
        [⟨"a", ⟨0, 0⟩⟩] "example.com" false).logged = true ∧
    (setTilesForActiveTab [⟨"t1", "default", []⟩] (some "t1")
        [⟨"a", ⟨0, 0⟩⟩] "example.com" false).thrown = false :=
  persistence_swallow_amended [⟨"t1", "default", []⟩] "t1" [⟨"a", ⟨0, 0⟩⟩]
    "example.com" false (by decide)

/-! ### The edit mode toggle (C9) -/

/-- The edit-mode-dependent workspace state `toggleEditMode` mutates:
the mode flag, whether tiles carry `draggable="true"` and the
`edit-mode` class, whether the remove buttons are shown, whether drop
zones are materialized, and the drag-session fields reset on exit. -/
structure EditModeState where
  isEditMode : Bool
  tilesDraggable : Bool
  removeBtnVisible : Bool
  dropZonesVisible : Bool
  dragged : Option String
  isMouseDragging : Bool
  justFinishedDrag : Bool
deriving DecidableEq

/-- `toggleEditMode`: flips `isEditMode`; entering edit mode makes every
tile draggable and shows remove buttons and drop zones; leaving disables
dragging, hides both, and resets the drag state (`draggedElement = null`,
`isMouseDragging = false`, `justFinishedDrag = false`). -/
def toggleEditMode (s : EditModeState) : EditModeState :=
  if s.isEditMode = false then
    { s with
      isEditMode := true
      tilesDraggable := true
      removeBtnVisible := true
      dropZonesVisible := true }
  else
    { isEditMode := false
      tilesDraggable := false
      removeBtnVisible := false
      dropZonesVisible := false
      dragged := none
      isMouseDragging := false
      justFinishedDrag := false }

/-- The NORMAL-mode state with no drag in flight. -/
def normalState : EditModeState := ⟨false, false, false, false, none, false, false⟩

/-- C9 (counterexample): `toggleEditMode` strictly flips
(`this.isEditMode = !this.isEditMode`), so toggling twice from NORMAL
with no intervening drag activity returns to NORMAL — tiles are not
draggable, unlike after a single toggle.  The claim that a double toggle
equals a single toggle is false. -/
theorem toggle_idempotent_counterexample :
    (toggleEditMode (toggleEditMode normalState)).tilesDraggable ≠
      (toggleEditMode normalState).tilesDraggable := by
  decide

/-- C9 (amended): the toggle is an involution, not idempotent: from any
state with no drag activity in flight whose affordance fields agree with
the mode flag (every committed state), toggling twice restores exactly
the state before the first toggle, while a single toggle flips the mode
(and with it the draggable/visibility state). -/
theorem toggle_involution_amended (s : EditModeState)
    (hdrag : s.dragged = none) (hmd : s.isMouseDragging = false)
    (hjf : s.justFinishedDrag = false)
    (h1 : s.tilesDraggable = s.isEditMode) (h2 : s.removeBtnVisible = s.isEditMode)
    (h3 : s.dropZonesVisible = s.isEditMode) :
    toggleEditMode (toggleEditMode s) = s ∧
    (toggleEditMode s).isEditMode = !s.isEditMode := by
  rcases s with ⟨e, td, rb, dz, dr, md, jf⟩
  simp only at hdrag hmd hjf h1 h2 h3
  subst hdrag
  subst hmd
  subst hjf
  cases e <;> cases td <;> cases rb <;> cases dz <;> simp_all [toggleEditMode]

/-- Witness for the amended C9 theorem at the NORMAL state. -/
theorem toggle_involution_amended_witness :
    toggleEditMode (toggleEditMode normalState) = normalState ∧
    (toggleEditMode normalState).isEditMode = !normalState.isEditMode :=
  toggle_involution_amended normalState rfl rfl rfl rfl rfl rfl
